import Mathlib

/-!
# Verification of the binary file editor

Shallow embedding of the editor's core: the mapped-file lifecycle manager
(`bfile_truncate`, `bfile_open` from `bfile.c`) and the bounds-checked edit
operations (`poke`, `copy`, `fill`, `hunt`, `bfile_peek` from the line-based
editor), together with the numeric-literal reader (`parse_address` from
`string.c`).

The file system and the kernel's syscalls are modelled explicitly: the
on-disk bytes are a `List Nat` (each element a byte value), and each
independently-failing syscall (ftruncate, mremap, mmap, msync, fstat, open)
is driven by a boolean environment so every failure path of the C code is a
reachable path of the model.
-/

/-- Binary file error table from fs.h. -/
def BFE_SUCCESS : Nat := 0
def BFE_OPEN : Nat := 1
def BFE_ACCESS : Nat := 2
def BFE_MAP : Nat := 3
def BFE_EMPTY : Nat := 4
def BFE_READONLY : Nat := 5
def BFE_TRUNCATE : Nat := 6
def BFE_IO : Nat := 7
def BFE_SYNC : Nat := 8
def BFE_RESIZE : Nat := 9

/-! ## Byte-list infrastructure

Byte buffers are lists of `Nat`; a read of `m[i]` in C becomes `m.getD i 0`
and a write `m[i] = b` becomes `m.set i b`. -/

/-- Read `n` bytes starting at offset `s` (the C expression `m + s` viewed as
an `n`-byte buffer). -/
def byteSlice (m : List Nat) (s n : Nat) : List Nat :=
  (m.drop s).take n

/-- Write the bytes `bs` one at a time starting at offset `a`, exactly like
the C byte-store loops in the editor. -/
def writeBytes (m : List Nat) (a : Nat) : List Nat → List Nat
  | [] => m
  | b :: bs => writeBytes (m.set a b) (a + 1) bs

theorem writeBytes_length (bs : List Nat) (m : List Nat) (a : Nat) :
    (writeBytes m a bs).length = m.length := by
  induction bs generalizing m a with
  | nil => rfl
  | cons b bs ih => simp [writeBytes, ih]

theorem getD_set (m : List Nat) (a : Nat) (b : Nat) (i : Nat) :
    (m.set a b).getD i 0 = if a = i ∧ a < m.length then b else m.getD i 0 := by
  by_cases h : a = i
  · subst h
    by_cases h2 : a < m.length
    · simp [List.getD_eq_getElem?_getD, List.getElem?_set_self h2, h2]
    · rw [List.set_eq_of_length_le (by omega)]
      simp [h2]
  · simp [List.getD_eq_getElem?_getD, List.getElem?_set_ne h, h]

theorem writeBytes_getD (bs : List Nat) (m : List Nat) (a : Nat)
    (h : a + bs.length ≤ m.length) (i : Nat) :
    (writeBytes m a bs).getD i 0 =
      if a ≤ i ∧ i < a + bs.length then bs.getD (i - a) 0 else m.getD i 0 := by
  induction bs generalizing m a with
  | nil =>
    simp only [writeBytes, List.length_nil]
    rw [if_neg (by omega)]
  | cons b bs ih =>
    simp only [writeBytes]
    rw [ih (m.set a b) (a + 1) (by simp only [List.length_set]; simp at h; omega)]
    rw [getD_set]
    by_cases hi : i = a
    · subst hi
      rw [if_neg (by omega)]
      rw [if_pos ⟨rfl, by simp at h; omega⟩]
      rw [if_pos ⟨le_refl i, by simp only [List.length_cons]; omega⟩]
      simp
    · by_cases hrange : a + 1 ≤ i ∧ i < a + 1 + bs.length
      · rw [if_pos hrange]
        have h1 : a ≤ i ∧ i < a + (b :: bs).length := by simp; omega
        rw [if_pos h1]
        have h2 : i - a = (i - (a + 1)) + 1 := by omega
        rw [h2]
        simp [List.getD_cons_succ]
      · rw [if_neg hrange]
        have h1 : ¬(a ≤ i ∧ i < a + (b :: bs).length) := by simp; omega
        rw [if_neg h1]
        have h2 : ¬(a = i ∧ a < m.length) := by
          intro ⟨he, _⟩; exact hi he.symm
        rw [if_neg h2]

theorem byteSlice_length (m : List Nat) (s n : Nat) (h : s + n ≤ m.length) :
    (byteSlice m s n).length = n := by
  simp [byteSlice]; omega

theorem byteSlice_getD (m : List Nat) (s n i : Nat) (hi : i < n) :
    (byteSlice m s n).getD i 0 = m.getD (s + i) 0 := by
  simp only [byteSlice, List.getD_eq_getElem?_getD]
  rw [List.getElem?_take_of_lt hi, List.getElem?_drop]

theorem ext_getD (m₁ m₂ : List Nat) (hl : m₁.length = m₂.length)
    (h : ∀ i, i < m₁.length → m₁.getD i 0 = m₂.getD i 0) : m₁ = m₂ := by
  apply List.ext_getElem hl
  intro i h1 h2
  have := h i h1
  simpa [List.getD_eq_getElem?_getD, List.getElem?_eq_getElem, h1, h2] using this

/-! ## Variable-width value encoding

`byte_count` is the editor's width rule; values are stored in the machine's
native byte order, which on the targeted machines is little-endian, so the
word stores `*((uintN_t*)dest) = value` lay down the low byte first. -/

/-- Storage width of a value, from the editor source: 8 if the value exceeds
UINT32_MAX, 4 if it exceeds UINT16_MAX, 2 if it exceeds UINT8_MAX, else 1. -/
def byte_count (v : Nat) : Nat :=
  if v > 4294967295 then 8
  else if v > 65535 then 4
  else if v > 255 then 2
  else 1

/-- Little-endian byte encoding of `v` into `k` bytes, modelling the C word
stores (which truncate the value to the stored width). -/
def encodeLE (v : Nat) : Nat → List Nat
  | 0 => []
  | k + 1 => (v % 256) :: encodeLE (v / 256) k

/-- Little-endian decoding, the inverse reading of a byte sequence. -/
def decodeLE : List Nat → Nat
  | [] => 0
  | b :: bs => b + 256 * decodeLE bs

theorem encodeLE_length (v k : Nat) : (encodeLE v k).length = k := by
  induction k generalizing v with
  | zero => rfl
  | succ k ih => simp [encodeLE, ih]

theorem decodeLE_encodeLE (k : Nat) (v : Nat) :
    decodeLE (encodeLE v k) = v % 256 ^ k := by
  induction k generalizing v with
  | zero => simp [encodeLE, decodeLE, Nat.mod_one]
  | succ k ih =>
    simp only [encodeLE, decodeLE, ih]
    rw [pow_succ, mul_comm (256 ^ k) 256, Nat.mod_mul]

/-- Total number of bytes a list of poke/fill/hunt values occupies: each
value contributes its own `byte_count`. -/
def encodeVals (vals : List Nat) : List Nat :=
  (vals.map (fun v => encodeLE v (byte_count v))).flatten

theorem encodeVals_single (v : Nat) : encodeVals [v] = encodeLE v (byte_count v) := by
  simp [encodeVals]

/-! ## Numeric-literal reader (string.c `parse_address`)

Strings are lists of characters.  `strchr(base_str, toupper(*ptr))` finds the
first position of the character in "0123456789ABCDEF"; a position at or past
`base` is an invalid digit for the selected base. -/

/-- Position of a character in the base string "0123456789ABCDEF", after
uppercasing; `none` when the character does not occur. -/
def digit_pos (c : Char) : Option Nat :=
  (['0', '1', '2', '3', '4', '5', '6', '7', '8', '9',
    'A', 'B', 'C', 'D', 'E', 'F'].indexOf? c.toUpper)

/-- The digit loop of parse_address: accumulate value and mask, rejecting a
character that is not a digit of the selected base. -/
def parse_digits (base : Nat) : List Char → Nat → Nat → Option (Nat × Nat)
  | [], v, mask => some (v, mask)
  | c :: cs, v, mask =>
    match digit_pos c with
    | none => none
    | some p =>
      if p ≥ base then none
      else parse_digits base cs (v * base + p) (mask * base + (base - 1))

/-- Model of parse_address from string.c: an empty string is rejected; a
leading '%', 'o' or '$' selects base 2, 8 or 16 (base 10 otherwise); the
remaining characters are folded into the value.  Returns (address, mask),
or `none` on a parse error (the C function's nonzero return). -/
def parse_address (s : List Char) : Option (Nat × Nat) :=
  match s with
  | [] => none
  | c :: cs =>
    match c with
    | '%' => parse_digits 2 cs 0 0
    | 'o' => parse_digits 8 cs 0 0
    | '$' => parse_digits 16 cs 0 0
    | _ => parse_digits 10 (c :: cs) 0 0

/-! ## The Mapped File entity

`BFile` mirrors struct bfile: the readonly flag, the current mapping
(present/absent with its length; MAP_FAILED becomes `none`), the cached
stat size `st.st_size`, the `size` field used by the edit operations, and
the on-disk bytes.  Because the mapping is MAP_SHARED, the bytes visible
through the mapping are the on-disk bytes, so the mapping's content is the
prefix of `disk` of length `mapLen`. -/

structure BFile where
  readonly : Bool
  mapLen : Option Nat
  stSize : Nat
  size : Nat
  disk : List Nat
deriving DecidableEq, Repr

/-- Outcome of each independently-failing syscall used by bfile_truncate. -/
structure SysEnv where
  ftruncateOk : Bool
  remapOk : Bool
  mmapOk : Bool
  msyncOk : Bool
  revertOk : Bool
  fstatOk : Bool
deriving DecidableEq, Repr

/-- ftruncate's effect on the on-disk bytes: shrink drops the tail, growth
zero-fills the new bytes. -/
def resizeDisk (m : List Nat) (n : Nat) : List Nat :=
  m.take n ++ List.replicate (n - m.length) 0

theorem resizeDisk_length (m : List Nat) (n : Nat) : (resizeDisk m n).length = n := by
  simp [resizeDisk]; omega

/-- Result of bfile_truncate: the error code, the resulting entity, and
whether the msync step was reached (used to show the shrink-to-zero path
never attempts durable synchronization). -/
structure TruncOut where
  code : Nat
  state : BFile
  syncAttempted : Bool
deriving DecidableEq, Repr

/-- Model of bfile_truncate from bfile.c.  Notes tying the model to the
source: the current size is read through bfile_size, i.e. the cached
`st.st_size`; the revert step calls mremap back to `oldsize`, and the
kernel rejects an mremap to length zero, so a revert from a grow-out-of-
zero can never succeed (hence the `oldsize ≠ 0` conjunct). -/
def bfile_truncate (f : BFile) (size : Nat) (env : SysEnv) : TruncOut :=
  if f.readonly then ⟨BFE_READONLY, f, false⟩
  else if f.stSize = size then ⟨BFE_SUCCESS, f, false⟩
  else if !env.ftruncateOk then ⟨BFE_TRUNCATE, f, false⟩
  else
    let disk1 := resizeDisk f.disk size
    let oldsize := f.stSize
    if size = 0 then
      let f1 : BFile := { f with mapLen := none, disk := disk1 }
      if env.fstatOk then ⟨BFE_SUCCESS, { f1 with stSize := disk1.length }, false⟩
      else ⟨BFE_ACCESS, f1, false⟩
    else if !(if oldsize ≠ 0 then env.remapOk else env.mmapOk) then
      ⟨BFE_MAP, { f with disk := disk1 }, false⟩
    else
      let f2 : BFile := { f with disk := disk1, mapLen := some size }
      if env.msyncOk then
        if env.fstatOk then ⟨BFE_SUCCESS, { f2 with stSize := disk1.length }, true⟩
        else ⟨BFE_ACCESS, f2, true⟩
      else if oldsize ≠ 0 ∧ env.revertOk then
        ⟨BFE_SYNC, { f2 with mapLen := some oldsize }, true⟩
      else
        ⟨ BFE_IO, { f2 with readonly := true }, true⟩

/-! ## bfile_open from bfile.c (three-argument variant) -/

/-- Outcome of each syscall used by bfile_open. -/
structure OpenEnv where
  firstOk : Bool
  rdOk : Bool
  createOk : Bool
  statOk : Bool
  statSize : Nat
  mmapOk : Bool
deriving DecidableEq, Repr

/-- Observable outcome of bfile_open: the error code and which cleanup
actions ran on the failure path. -/
structure OpenOut where
  err : Nat
  acquired : Bool
  created : Bool
  unlinked : Bool
  fdClosed : Bool
deriving DecidableEq, Repr

/-- The part of bfile_open after a descriptor was acquired: fstat, then
mmap when the size is nonzero; the shared failure label unlinks an
exclusively created file and closes the descriptor. -/
def bfile_open_finish (created : Bool) (env : OpenEnv) : OpenOut :=
  if !env.statOk then ⟨BFE_ACCESS, true, created, created, true⟩
  else if env.statSize ≠ 0 ∧ !env.mmapOk then ⟨BFE_MAP, true, created, created, true⟩
  else ⟨BFE_SUCCESS, true, created, false, false⟩

/-- Model of bfile_open from bfile.c: try open(name, oflags); on failure a
zero mode gives up, a nonzero mode retries read-only (readonly fallback),
then tries an exclusive create; a descriptor-less failure performs no
cleanup. -/
def bfile_open (mode : Nat) (env : OpenEnv) : OpenOut :=
  if env.firstOk then bfile_open_finish false env
  else if mode = 0 then ⟨BFE_OPEN, false, false, false, false⟩
  else if env.rdOk then bfile_open_finish false env
  else if env.createOk then bfile_open_finish true env
  else ⟨BFE_OPEN, false, false, false, false⟩

/-! ## The sized open call (spec §4.1) -/

/-- Syscall outcomes for the sized open. -/
structure OpenSizedEnv where
  rdwrOk : Bool
  rdOnlyOk : Bool
  exclOk : Bool
  statOk : Bool
  statSize : Nat
  mmapOk : Bool
  truncOk : Bool
deriving DecidableEq, Repr

/-- Shared tail of the sized open on the no-resize paths: query metadata,
reject a zero-length file, then map. -/
def open_sized_mapped (ro : Bool) (env : OpenSizedEnv) : Except Nat (Bool × Nat) :=
  if !env.statOk then .error BFE_ACCESS
  else if env.statSize = 0 then .error BFE_EMPTY
  else if !env.mmapOk then .error BFE_MAP
  else .ok (ro, env.statSize)

/-- Modelled from the spec: the four-argument `bfile_open(f, name, mode,
size)` is declared in fs.h and called from the editor's main, but its
definition is not among the sources (bfile.c holds an older three-argument
variant without the size parameter).  Following spec §4.1: mode 0 opens an
existing file read-only; a nonzero mode with a zero desired size opens
read-write with a read-only fallback; a nonzero desired size provisions
the file (exclusive create, or reuse of an existing empty file, truncating
to the desired size, refusing a non-empty file with RESIZE); after
descriptor acquisition the metadata is queried, and a resulting size of 0
with no resize requested is the EMPTY error.  Returns (readonly, size) on
success. -/
def bfile_open_sized (mode reqSize : Nat) (env : OpenSizedEnv) : Except Nat (Bool × Nat) :=
  if mode = 0 then
    if !env.rdOnlyOk then .error BFE_OPEN else open_sized_mapped true env
  else if reqSize = 0 then
    if env.rdwrOk then open_sized_mapped false env
    else if env.rdOnlyOk then open_sized_mapped true env
    else .error BFE_OPEN
  else
    if env.exclOk then
      if !env.truncOk then .error BFE_TRUNCATE
      else if !env.mmapOk then .error BFE_MAP
      else .ok (false, reqSize)
    else if !env.rdwrOk then .error BFE_OPEN
    else if !env.statOk then .error BFE_ACCESS
    else if env.statSize ≠ 0 then .error BFE_RESIZE
    else if !env.truncOk then .error BFE_TRUNCATE
    else if !env.mmapOk then .error BFE_MAP
    else .ok (false, reqSize)

/-! ## Edit operations (line-based editor) -/

/-- Result of an edit operation, mirroring the editor's printed outcomes. -/
inductive Res
  | ok
  | rdonly
  | missingData
  | notMultiple
  | behind (n : Nat)
  | overflow (n : Nat)
  | srcOverflow (n : Nat)
  | dstOverflow (n : Nat)
  | found (off : Nat)
  | notFound
  | code (c : Nat)
deriving DecidableEq, Repr

/-- Total byte span of a poke value list (the editor's first pass counts
byte_count per value). -/
def pokeWidth (vals : List Nat) : Nat := (vals.map byte_count).sum

/-- Model of poke: refuse a readonly file, require at least one value,
check "behind file" (addr strictly greater than size, reporting the
difference), check overflow of the whole span, then store each value at
its own width. -/
def poke (f : BFile) (addr : Nat) (vals : List Nat) : Res × BFile :=
  if f.readonly then (.rdonly, f)
  else if vals = [] then (.missingData, f)
  else if addr > f.size then (.behind (addr - f.size), f)
  else if addr + pokeWidth vals > f.size then (.overflow (addr + pokeWidth vals - f.size), f)
  else (.ok, { f with disk := writeBytes f.disk addr (encodeVals vals) })

/-- Forward in-place byte-by-byte copy (lowest address first), the safe
direction when the destination does not lie above the source. -/
def copyFwd : List Nat → Nat → Nat → Nat → List Nat
  | m, _, _, 0 => m
  | m, d, s, n + 1 => copyFwd (m.set d (m.getD s 0)) (d + 1) (s + 1) n

/-- Backward in-place byte-by-byte copy (highest address first), the safe
direction when the destination lies above the source. -/
def copyBwd : List Nat → Nat → Nat → Nat → List Nat
  | m, _, _, 0 => m
  | m, d, s, n + 1 => copyBwd (m.set (d + n) (m.getD (s + n) 0)) d s n

/-- Model of memmove: copy in the overlap-safe direction, as the C library
guarantees for overlapping ranges. -/
def memmove (m : List Nat) (d s n : Nat) : List Nat :=
  if d ≤ s then copyFwd m d s n else copyBwd m d s n

/-- Named from the spec's words: the result of first copying the source
range into a temporary buffer and then writing the buffer to the
destination range. -/
def tempBufferCopy (m : List Nat) (d s n : Nat) : List Nat :=
  writeBytes m d (byteSlice m s n)

/-- Model of copy: bounds-check the source range, then the destination
range (the source has no readonly check here), then move the bytes. -/
def copy (f : BFile) (dst src len : Nat) : Res × BFile :=
  if src + len > f.size then (.srcOverflow (src + len - f.size), f)
  else if dst + len > f.size then (.dstOverflow (dst + len - f.size), f)
  else (.ok, { f with disk := memmove f.disk dst src len })

/-- Model of fill: require data, require the span to be a whole multiple of
the pattern, bounds-check, then write the pattern repeatedly (the source
has no readonly check here). -/
def fill (f : BFile) (addr len : Nat) (vals : List Nat) : Res × BFile :=
  if vals = [] then (.missingData, f)
  else if len % (encodeVals vals).length ≠ 0 then (.notMultiple, f)
  else if addr > f.size then (.behind (addr - f.size), f)
  else if addr + len > f.size then (.overflow (addr + len - f.size), f)
  else (.ok, { f with disk := writeBytes f.disk addr ((List.replicate (len / (encodeVals vals).length) (encodeVals vals)).flatten) })

/-- First match of the needle at or after start, scanning k candidate
positions (memmem over the window). -/
def searchFwd (m : List Nat) (needle : List Nat) : Nat → Nat → Option Nat
  | _, 0 => none
  | start, k + 1 =>
    if byteSlice m start needle.length = needle then some start
    else searchFwd m needle (start + 1) k

/-- Model of hunt: require data, bounds-check the window, treat a needle
extending past the file as not found, else memmem in the window. -/
def hunt (f : BFile) (addr len : Nat) (vals : List Nat) : Res × BFile :=
  if vals = [] then (.missingData, f)
  else if addr > f.size then (.behind (addr - f.size), f)
  else if addr + len > f.size then (.overflow (addr + len - f.size), f)
  else if addr + (encodeVals vals).length > f.size then (.notFound, f)
  else
    match searchFwd f.disk (encodeVals vals) addr
        (if len ≥ (encodeVals vals).length then len - (encodeVals vals).length + 1 else 0) with
    | some i => (.found i, f)
    | none => (.notFound, f)

/-- Model of bfile_peek: one entry per requested offset, a byte value while
before the file's size and a gap marker (`none`, printed as ~~) past it. -/
def bfile_peek (f : BFile) (start len : Nat) : List (Option Nat) :=
  (List.range len).map (fun i => if start + i < f.size then some (f.disk.getD (start + i) 0) else none)

/-! ## Command steps, for lifetime statements -/

/-- One dispatched command against the file. -/
inductive Op
  | opPoke (addr : Nat) (vals : List Nat)
  | opCopy (dst src len : Nat)
  | opFill (addr len : Nat) (vals : List Nat)
  | opHunt (addr len : Nat) (vals : List Nat)
  | opTrunc (size : Nat) (env : SysEnv)

/-- Run one command. -/
def applyOp (f : BFile) : Op → Res × BFile
  | .opPoke a vs => poke f a vs
  | .opCopy d s l => copy f d s l
  | .opFill a l vs => fill f a l vs
  | .opHunt a l vs => hunt f a l vs
  | .opTrunc n env =>
    let o := bfile_truncate f n env
    (.code o.code, o.state)

/-- Run a command sequence. -/
def applySeq (f : BFile) : List Op → BFile
  | [] => f
  | op :: ops => applySeq (applyOp f op).2 ops

/-! ## Helper lemmas on the operations -/

theorem bfile_truncate_readonly_refuse (f : BFile) (n : Nat) (env : SysEnv)
    (h : f.readonly = true) : bfile_truncate f n env = ⟨BFE_READONLY, f, false⟩ := by
  simp [bfile_truncate, h]

theorem poke_readonly_refuse (f : BFile) (addr : Nat) (vals : List Nat)
    (h : f.readonly = true) : poke f addr vals = (.rdonly, f) := by
  simp [poke, h]

theorem poke_flag (f : BFile) (addr : Nat) (vals : List Nat) :
    ((poke f addr vals).2).readonly = f.readonly := by
  unfold poke; split_ifs <;> rfl

theorem copy_flag (f : BFile) (dst src len : Nat) :
    ((copy f dst src len).2).readonly = f.readonly := by
  unfold copy; split_ifs <;> rfl

theorem fill_flag (f : BFile) (addr len : Nat) (vals : List Nat) :
    ((fill f addr len vals).2).readonly = f.readonly := by
  unfold fill; split_ifs <;> rfl

theorem hunt_state (f : BFile) (addr len : Nat) (vals : List Nat) :
    (hunt f addr len vals).2 = f := by
  unfold hunt
  split_ifs <;> try rfl
  all_goals split <;> rfl

theorem applyOp_flag (f : BFile) (op : Op) (h : f.readonly = true) :
    ((applyOp f op).2).readonly = true := by
  cases op with
  | opPoke a vs => rw [applyOp, poke_flag, h]
  | opCopy d s l => rw [applyOp, copy_flag, h]
  | opFill a l vs => rw [applyOp, fill_flag, h]
  | opHunt a l vs => rw [applyOp, hunt_state, h]
  | opTrunc n env => simp [applyOp, bfile_truncate_readonly_refuse _ _ _ h, h]

theorem applySeq_flag (ops : List Op) (f : BFile) (h : f.readonly = true) :
    (applySeq f ops).readonly = true := by
  induction ops generalizing f with
  | nil => exact h
  | cons op ops ih => exact ih _ (applyOp_flag f op h)

/-! ## Claim theorems -/

/-- C10: parse_address accepts a base prefix with no digits: each of the
inputs "$", "%" and "o" parses successfully to the value 0 rather than
reporting a parse error. -/
theorem C10_parse_address_bare_prefix :
    parse_address ['$'] = some (0, 0) ∧
    parse_address ['%'] = some (0, 0) ∧
    parse_address ['o'] = some (0, 0) :=
  ⟨rfl, rfl, rfl⟩

/-- C5: in the sized open call, when a descriptor is acquired on a
no-resize path and the metadata query reports size 0, the call fails with
EMPTY instead of returning an opened zero-size file. -/
theorem C5_open_sized_empty (mode reqSize : Nat) (env : OpenSizedEnv)
    (hreq : reqSize = 0)
    (hacq0 : mode = 0 → env.rdOnlyOk = true)
    (hacq1 : mode ≠ 0 → env.rdwrOk = true ∨ env.rdOnlyOk = true)
    (hstat : env.statOk = true) (hsize : env.statSize = 0) :
    bfile_open_sized mode reqSize env = Except.error BFE_EMPTY := by
  subst hreq
  by_cases hm : mode = 0
  · simp [bfile_open_sized, hm, hacq0 hm, open_sized_mapped, hstat, hsize]
  · rcases hacq1 hm with h | h
    · simp [bfile_open_sized, hm, h, open_sized_mapped, hstat, hsize]
    · by_cases hrw : env.rdwrOk = true
      · simp [bfile_open_sized, hm, hrw, open_sized_mapped, hstat, hsize]
      · simp [bfile_open_sized, hm, hrw, h, open_sized_mapped, hstat, hsize]

theorem C5_open_sized_empty_witness :
    bfile_open_sized 420 0 ⟨true, true, true, true, 0, true, true⟩ = Except.error BFE_EMPTY :=
  C5_open_sized_empty 420 0 ⟨true, true, true, true, 0, true, true⟩ rfl
    (by decide) (by decide) rfl rfl

/-- C6: an open call that exclusively created the file and then fails on
the metadata query or on mapping unlinks the created file and closes the
descriptor before returning the error. -/
theorem C6_open_create_cleanup (mode : Nat) (env : OpenEnv)
    (h1 : env.firstOk = false) (h2 : mode ≠ 0) (h3 : env.rdOk = false)
    (h4 : env.createOk = true)
    (h5 : env.statOk = false ∨ (env.statSize ≠ 0 ∧ env.mmapOk = false)) :
    (bfile_open mode env).created = true ∧
    (bfile_open mode env).err ≠ BFE_SUCCESS ∧
    ((bfile_open mode env).err = BFE_ACCESS ∨ (bfile_open mode env).err = BFE_MAP) ∧
    (bfile_open mode env).unlinked = true ∧
    (bfile_open mode env).fdClosed = true := by
  have hopen : bfile_open mode env = bfile_open_finish true env := by
    simp [bfile_open, h1, h2, h3, h4]
  rw [hopen]
  by_cases hs : env.statOk = true
  · rcases h5 with h | ⟨ha, hb⟩
    · rw [hs] at h; cases h
    · simp [bfile_open_finish, hs, ha, hb, BFE_MAP, BFE_SUCCESS]
  · have hs' : env.statOk = false := by
      cases h : env.statOk
      · rfl
      · exact absurd h hs
    simp [bfile_open_finish, hs', BFE_ACCESS, BFE_SUCCESS]

theorem C6_open_create_cleanup_witness :
    (bfile_open 420 ⟨false, false, true, false, 0, true⟩).created = true ∧
    (bfile_open 420 ⟨false, false, true, false, 0, true⟩).err ≠ BFE_SUCCESS ∧
    ((bfile_open 420 ⟨false, false, true, false, 0, true⟩).err = BFE_ACCESS ∨
      (bfile_open 420 ⟨false, false, true, false, 0, true⟩).err = BFE_MAP) ∧
    (bfile_open 420 ⟨false, false, true, false, 0, true⟩).unlinked = true ∧
    (bfile_open 420 ⟨false, false, true, false, 0, true⟩).fdClosed = true :=
  C6_open_create_cleanup 420 ⟨false, false, true, false, 0, true⟩ rfl (by decide) rfl rfl
    (Or.inl rfl)

/-- C9: on a writable file of nonzero size, truncating to 0 with a
successful resize syscall never reaches the durable synchronization step,
releases the mapping, returns only success or ACCESS, and leaves the
readonly flag clear. -/
theorem C9_truncate_to_zero (f : BFile) (env : SysEnv)
    (hro : f.readonly = false) (hsz : f.stSize ≠ 0)
    (hft : env.ftruncateOk = true) :
    (bfile_truncate f 0 env).syncAttempted = false ∧
    ((bfile_truncate f 0 env).code = BFE_SUCCESS ∨ (bfile_truncate f 0 env).code = BFE_ACCESS) ∧
    (bfile_truncate f 0 env).state.mapLen = none ∧
    (bfile_truncate f 0 env).state.readonly = false := by
  by_cases hf : env.fstatOk = true
  · simp [bfile_truncate, hro, hsz, hft, hf]
  · simp only [Bool.not_eq_true] at hf
    simp [bfile_truncate, hro, hsz, hft, hf]

theorem C9_truncate_to_zero_witness :
    (bfile_truncate ⟨false, some 2, 2, 2, [3, 4]⟩ 0 ⟨true, true, true, true, true, true⟩).syncAttempted = false ∧
    ((bfile_truncate ⟨false, some 2, 2, 2, [3, 4]⟩ 0 ⟨true, true, true, true, true, true⟩).code = BFE_SUCCESS ∨
      (bfile_truncate ⟨false, some 2, 2, 2, [3, 4]⟩ 0 ⟨true, true, true, true, true, true⟩).code = BFE_ACCESS) ∧
    (bfile_truncate ⟨false, some 2, 2, 2, [3, 4]⟩ 0 ⟨true, true, true, true, true, true⟩).state.mapLen = none ∧
    (bfile_truncate ⟨false, some 2, 2, 2, [3, 4]⟩ 0 ⟨true, true, true, true, true, true⟩).state.readonly = false :=
  C9_truncate_to_zero ⟨false, some 2, 2, 2, [3, 4]⟩ ⟨true, true, true, true, true, true⟩
    rfl (by decide) rfl

/-- C1: when the resize syscall succeeds, the durable synchronization
fails, and the reversion of the mapping to the old size succeeds, truncate
returns SYNC and the Mapped File entity is exactly as before the call: the
readonly flag, the size, the size field and the mapping are their pre-call
values. -/
theorem C1_truncate_sync_rollback (f : BFile) (n : Nat) (env : SysEnv)
    (hro : f.readonly = false) (hmap : f.mapLen = some f.stSize)
    (hne : f.stSize ≠ n) (hn0 : n ≠ 0) (hold : f.stSize ≠ 0)
    (hft : env.ftruncateOk = true) (hre : env.remapOk = true)
    (hms : env.msyncOk = false) (hrv : env.revertOk = true) :
    (bfile_truncate f n env).code = BFE_SYNC ∧
    (bfile_truncate f n env).state.readonly = f.readonly ∧
    (bfile_truncate f n env).state.stSize = f.stSize ∧
    (bfile_truncate f n env).state.size = f.size ∧
    (bfile_truncate f n env).state.mapLen = f.mapLen := by
  simp [bfile_truncate, hro, hne, hn0, hold, hft, hre, hms, hrv, hmap]

theorem C1_truncate_sync_rollback_witness :
    (bfile_truncate ⟨false, some 1, 1, 1, [7]⟩ 2 ⟨true, true, true, false, true, true⟩).code = BFE_SYNC ∧
    (bfile_truncate ⟨false, some 1, 1, 1, [7]⟩ 2 ⟨true, true, true, false, true, true⟩).state.readonly = false ∧
    (bfile_truncate ⟨false, some 1, 1, 1, [7]⟩ 2 ⟨true, true, true, false, true, true⟩).state.stSize = 1 ∧
    (bfile_truncate ⟨false, some 1, 1, 1, [7]⟩ 2 ⟨true, true, true, false, true, true⟩).state.size = 1 ∧
    (bfile_truncate ⟨false, some 1, 1, 1, [7]⟩ 2 ⟨true, true, true, false, true, true⟩).state.mapLen = some 1 :=
  C1_truncate_sync_rollback ⟨false, some 1, 1, 1, [7]⟩ 2 ⟨true, true, true, false, true, true⟩
    rfl rfl (by decide) (by decide) (by decide) rfl rfl rfl rfl

/-- C2: when both the durable synchronization and the reversion fail,
truncate reports IO and sets the readonly flag; the flag stays set across
every later command sequence, and any later truncate or poke refuses with
READONLY, leaving the entity unchanged. -/
theorem C2_truncate_io_permanent_readonly (f : BFile) (n : Nat) (env : SysEnv)
    (hro : f.readonly = false) (hne : f.stSize ≠ n) (hn0 : n ≠ 0)
    (hft : env.ftruncateOk = true)
    (hmp : (if f.stSize ≠ 0 then env.remapOk else env.mmapOk) = true)
    (hms : env.msyncOk = false)
    (hrv : ¬(f.stSize ≠ 0 ∧ env.revertOk = true)) :
    (bfile_truncate f n env).code = BFE_IO ∧
    (bfile_truncate f n env).state.readonly = true ∧
    (∀ ops : List Op, (applySeq (bfile_truncate f n env).state ops).readonly = true) ∧
    (∀ ops : List Op, ∀ m : Nat, ∀ env' : SysEnv,
      bfile_truncate (applySeq (bfile_truncate f n env).state ops) m env'
        = ⟨BFE_READONLY, applySeq (bfile_truncate f n env).state ops, false⟩) ∧
    (∀ ops : List Op, ∀ a : Nat, ∀ vs : List Nat,
      poke (applySeq (bfile_truncate f n env).state ops) a vs
        = (.rdonly, applySeq (bfile_truncate f n env).state ops)) := by
  have hstep : (bfile_truncate f n env).code = BFE_IO ∧
      (bfile_truncate f n env).state.readonly = true := by
    simp only [bfile_truncate, hro, hne, hn0, hft, hms]
    rw [hmp]
    simp [hrv]
  refine ⟨hstep.1, hstep.2, ?_, ?_, ?_⟩
  · intro ops
    exact applySeq_flag ops _ hstep.2
  · intro ops m env'
    exact bfile_truncate_readonly_refuse _ m env' (applySeq_flag ops _ hstep.2)
  · intro ops a vs
    exact poke_readonly_refuse _ a vs (applySeq_flag ops _ hstep.2)

theorem C2_truncate_io_permanent_readonly_witness :
    (bfile_truncate ⟨false, some 1, 1, 1, [7]⟩ 2 ⟨true, true, true, false, false, true⟩).code = BFE_IO ∧
    (bfile_truncate ⟨false, some 1, 1, 1, [7]⟩ 2 ⟨true, true, true, false, false, true⟩).state.readonly = true ∧
    (applySeq (bfile_truncate ⟨false, some 1, 1, 1, [7]⟩ 2 ⟨true, true, true, false, false, true⟩).state
      [Op.opCopy 0 0 1, Op.opFill 0 1 [3]]).readonly = true ∧
    bfile_truncate (applySeq (bfile_truncate ⟨false, some 1, 1, 1, [7]⟩ 2 ⟨true, true, true, false, false, true⟩).state
        [Op.opCopy 0 0 1]) 3 ⟨true, true, true, true, true, true⟩
      = ⟨BFE_READONLY, applySeq (bfile_truncate ⟨false, some 1, 1, 1, [7]⟩ 2 ⟨true, true, true, false, false, true⟩).state
          [Op.opCopy 0 0 1], false⟩ ∧
    poke (applySeq (bfile_truncate ⟨false, some 1, 1, 1, [7]⟩ 2 ⟨true, true, true, false, false, true⟩).state
        [Op.opCopy 0 0 1]) 0 [1]
      = (.rdonly, applySeq (bfile_truncate ⟨false, some 1, 1, 1, [7]⟩ 2 ⟨true, true, true, false, false, true⟩).state
          [Op.opCopy 0 0 1]) := by
  have h := C2_truncate_io_permanent_readonly ⟨false, some 1, 1, 1, [7]⟩ 2
    ⟨true, true, true, false, false, true⟩ rfl (by decide) (by decide) rfl (by decide) rfl
    (by decide)
  exact ⟨h.1, h.2.1, h.2.2.1 [Op.opCopy 0 0 1, Op.opFill 0 1 [3]],
    h.2.2.2.1 [Op.opCopy 0 0 1] 3 ⟨true, true, true, true, true, true⟩,
    h.2.2.2.2 [Op.opCopy 0 0 1] 0 [1]⟩

/-- C3 counterexample: on a 4-byte file, poke at address 6 of one 1-byte
value reports 2 bytes behind end of file where the claim demands
6 - 4 + 1 = 3, and poke at address 4 (equal to the size) reports an
overflow of 1 byte where the claim demands "1 byte behind end of file". -/
theorem C3_bounds_counterexample :
    poke ⟨false, some 4, 4, 4, [0, 0, 0, 0]⟩ 6 [0]
      = (Res.behind 2, ⟨false, some 4, 4, 4, [0, 0, 0, 0]⟩) ∧
    Res.behind 2 ≠ Res.behind 3 ∧
    poke ⟨false, some 4, 4, 4, [0, 0, 0, 0]⟩ 4 [0]
      = (Res.overflow 1, ⟨false, some 4, 4, 4, [0, 0, 0, 0]⟩) ∧
    Res.overflow 1 ≠ Res.behind 1 := by
  refine ⟨?_, by decide, ?_, by decide⟩ <;> rfl

/-- C3 as amended: for poke, fill and hunt, an access at addr strictly
beyond the size reports "N bytes behind file" with N = addr - size; else
a span ending beyond the size reports "overflow by N bytes" with
N = addr + len - size (for poke, len is the total width of the values);
in both cases the operation aborts with the file unchanged. -/
theorem C3_bounds_amended (f : BFile) (addr len : Nat) (vals : List Nat)
    (hro : f.readonly = false) (hvals : vals ≠ [])
    (hmul : len % (encodeVals vals).length = 0) :
    (addr > f.size →
      poke f addr vals = (.behind (addr - f.size), f) ∧
      fill f addr len vals = (.behind (addr - f.size), f) ∧
      hunt f addr len vals = (.behind (addr - f.size), f)) ∧
    (addr ≤ f.size → addr + pokeWidth vals > f.size →
      poke f addr vals = (.overflow (addr + pokeWidth vals - f.size), f)) ∧
    (addr ≤ f.size → addr + len > f.size →
      fill f addr len vals = (.overflow (addr + len - f.size), f) ∧
      hunt f addr len vals = (.overflow (addr + len - f.size), f)) := by
  refine ⟨?_, ?_, ?_⟩
  · intro hb
    refine ⟨?_, ?_, ?_⟩
    · unfold poke
      rw [if_neg (by rw [hro]; exact Bool.false_ne_true), if_neg hvals, if_pos hb]
    · unfold fill
      rw [if_neg hvals, if_neg (by omega), if_pos hb]
    · unfold hunt
      rw [if_neg hvals, if_pos hb]
  · intro hle hov
    unfold poke
    rw [if_neg (by rw [hro]; exact Bool.false_ne_true), if_neg hvals, if_neg (by omega),
      if_pos hov]
  · intro hle hov
    constructor
    · unfold fill
      rw [if_neg hvals, if_neg (by omega), if_neg (by omega), if_pos hov]
    · unfold hunt
      rw [if_neg hvals, if_neg (by omega), if_pos hov]

theorem C3_bounds_amended_witness :
    poke ⟨false, some 4, 4, 4, [0, 0, 0, 0]⟩ 6 [0]
      = (.behind 2, ⟨false, some 4, 4, 4, [0, 0, 0, 0]⟩) ∧
    fill ⟨false, some 4, 4, 4, [0, 0, 0, 0]⟩ 2 3 [0]
      = (.overflow 1, ⟨false, some 4, 4, 4, [0, 0, 0, 0]⟩) ∧
    hunt ⟨false, some 4, 4, 4, [0, 0, 0, 0]⟩ 2 3 [0]
      = (.overflow 1, ⟨false, some 4, 4, 4, [0, 0, 0, 0]⟩) := by
  have ha := C3_bounds_amended ⟨false, some 4, 4, 4, [0, 0, 0, 0]⟩ 6 3 [0]
    rfl (by decide) (by decide)
  have hb := C3_bounds_amended ⟨false, some 4, 4, 4, [0, 0, 0, 0]⟩ 2 3 [0]
    rfl (by decide) (by decide)
  exact ⟨(ha.1 (by decide)).1, (hb.2.2 (by decide) (by decide)).1,
    (hb.2.2 (by decide) (by decide)).2⟩

/-- C4: the claim fails in the code: on a readonly file, copy and fill
perform the write instead of refusing with READONLY (on the real readonly
mapping the store would fault) — here copy turns the bytes [0, 7] into
[7, 7] and fill turns them into [5, 5], both returning success. -/
theorem C4_readonly_copy_fill_mutate :
    copy ⟨true, some 2, 2, 2, [0, 7]⟩ 0 1 1
      = (Res.ok, ⟨true, some 2, 2, 2, [7, 7]⟩) ∧
    fill ⟨true, some 2, 2, 2, [0, 7]⟩ 0 2 [5]
      = (Res.ok, ⟨true, some 2, 2, 2, [5, 5]⟩) := by
  constructor <;> rfl

/-! ## Width rule and poke/peek round trip (C7) -/

theorem byte_count_mem (v : Nat) :
    byte_count v = 1 ∨ byte_count v = 2 ∨ byte_count v = 4 ∨ byte_count v = 8 := by
  unfold byte_count; split_ifs <;> simp

theorem byte_count_bound (v : Nat) (h : v < 2 ^ 64) : v < 2 ^ (8 * byte_count v) := by
  norm_num at h
  unfold byte_count
  split_ifs <;> norm_num <;> omega

theorem byte_count_min (v w : Nat) (hw : w = 1 ∨ w = 2 ∨ w = 4 ∨ w = 8)
    (h : v < 2 ^ (8 * w)) : byte_count v ≤ w := by
  rcases hw with rfl | rfl | rfl | rfl <;>
    (norm_num at h ⊢; unfold byte_count; split_ifs <;> omega)

theorem pow256_eq (k : Nat) : (256 : Nat) ^ k = 2 ^ (8 * k) := by
  have h : (256 : Nat) = 2 ^ 8 := by norm_num
  rw [h, ← pow_mul]

theorem bfile_peek_writeBytes (f : BFile) (addr : Nat) (bs : List Nat)
    (hsz : f.size = f.disk.length) (hb : addr + bs.length ≤ f.size) :
    bfile_peek { f with disk := writeBytes f.disk addr bs } addr bs.length = bs.map some := by
  apply List.ext_getElem
  · simp [bfile_peek]
  · intro i h1 h2
    have hi : i < bs.length := by simpa [bfile_peek] using h1
    simp only [bfile_peek, List.getElem_map, List.getElem_range]
    rw [if_pos (show addr + i < f.size by omega)]
    rw [writeBytes_getD bs f.disk addr (by omega) (addr + i)]
    rw [if_pos (by omega : addr ≤ addr + i ∧ addr + i < addr + bs.length)]
    have he : addr + i - addr = i := by omega
    rw [he]
    simp [List.getD_eq_getElem?_getD, List.getElem?_eq_getElem hi]

/-- C7: the storage width of a value is the least of 1, 2, 4, 8 bytes that
holds it unsigned, and on a writable file an in-bounds poke of one value
followed by a peek of its width reads back exactly the bytes whose
little-endian decoding is the value again. -/
theorem C7_poke_peek_roundtrip (v : Nat) (f : BFile) (addr : Nat)
    (hv : v < 2 ^ 64)
    (hro : f.readonly = false)
    (hsz : f.size = f.disk.length)
    (hb : addr + byte_count v ≤ f.size) :
    (byte_count v = 1 ∨ byte_count v = 2 ∨ byte_count v = 4 ∨ byte_count v = 8) ∧
    v < 2 ^ (8 * byte_count v) ∧
    (∀ w, (w = 1 ∨ w = 2 ∨ w = 4 ∨ w = 8) → v < 2 ^ (8 * w) → byte_count v ≤ w) ∧
    (poke f addr [v]).1 = Res.ok ∧
    bfile_peek (poke f addr [v]).2 addr (byte_count v) = (encodeLE v (byte_count v)).map some ∧
    decodeLE (encodeLE v (byte_count v)) = v := by
  have hbc1 : 1 ≤ byte_count v := by unfold byte_count; split_ifs <;> omega
  have hwidth : pokeWidth [v] = byte_count v := by simp [pokeWidth]
  have hpoke : poke f addr [v]
      = (Res.ok, { f with disk := writeBytes f.disk addr (encodeVals [v]) }) := by
    unfold poke
    rw [if_neg (by rw [hro]; exact Bool.false_ne_true), if_neg (by simp),
      if_neg (by omega), if_neg (by rw [hwidth]; omega)]
  have hlen : (encodeVals [v]).length = byte_count v := by
    rw [encodeVals_single, encodeLE_length]
  refine ⟨byte_count_mem v, byte_count_bound v hv,
    fun w hw h => byte_count_min v w hw h, ?_, ?_, ?_⟩
  · rw [hpoke]
  · rw [hpoke, ← hlen, bfile_peek_writeBytes f addr (encodeVals [v]) hsz (by omega),
      encodeVals_single, encodeLE_length]
  · rw [decodeLE_encodeLE, Nat.mod_eq_of_lt]
    rw [pow256_eq]
    exact byte_count_bound v hv

theorem C7_poke_peek_roundtrip_witness :
    (byte_count 511 = 1 ∨ byte_count 511 = 2 ∨ byte_count 511 = 4 ∨ byte_count 511 = 8) ∧
    511 < 2 ^ (8 * byte_count 511) ∧
    (∀ w, (w = 1 ∨ w = 2 ∨ w = 4 ∨ w = 8) → 511 < 2 ^ (8 * w) → byte_count 511 ≤ w) ∧
    (poke ⟨false, some 4, 4, 4, [0, 0, 0, 0]⟩ 1 [511]).1 = Res.ok ∧
    bfile_peek (poke ⟨false, some 4, 4, 4, [0, 0, 0, 0]⟩ 1 [511]).2 1 (byte_count 511)
      = (encodeLE 511 (byte_count 511)).map some ∧
    decodeLE (encodeLE 511 (byte_count 511)) = 511 :=
  C7_poke_peek_roundtrip 511 ⟨false, some 4, 4, 4, [0, 0, 0, 0]⟩ 1
    (by norm_num) rfl rfl (by decide)

/-! ## memmove versus the temporary-buffer copy (C8) -/

theorem copyFwd_length (n : Nat) : ∀ (m : List Nat) (d s : Nat),
    (copyFwd m d s n).length = m.length := by
  induction n with
  | zero => intro m d s; rfl
  | succ n ih =>
    intro m d s
    rw [show copyFwd m d s (n + 1) = copyFwd (m.set d (m.getD s 0)) (d + 1) (s + 1) n from rfl,
      ih]
    simp

theorem copyBwd_length (n : Nat) : ∀ (m : List Nat) (d s : Nat),
    (copyBwd m d s n).length = m.length := by
  induction n with
  | zero => intro m d s; rfl
  | succ n ih =>
    intro m d s
    rw [show copyBwd m d s (n + 1) = copyBwd (m.set (d + n) (m.getD (s + n) 0)) d s n from rfl,
      ih]
    simp

theorem copyFwd_getD (n : Nat) : ∀ (m : List Nat) (d s : Nat), d ≤ s →
    d + n ≤ m.length → s + n ≤ m.length → ∀ i : Nat,
    (copyFwd m d s n).getD i 0 =
      if d ≤ i ∧ i < d + n then m.getD (s + (i - d)) 0 else m.getD i 0 := by
  induction n with
  | zero =>
    intro m d s _ _ _ i
    rw [if_neg (by omega)]
    rfl
  | succ n ih =>
    intro m d s hds hd hs i
    rw [show copyFwd m d s (n + 1) = copyFwd (m.set d (m.getD s 0)) (d + 1) (s + 1) n from rfl]
    rw [ih (m.set d (m.getD s 0)) (d + 1) (s + 1) (by omega) (by simp; omega) (by simp; omega) i]
    by_cases h1 : d + 1 ≤ i ∧ i < d + 1 + n
    · rw [if_pos h1, if_pos (show d ≤ i ∧ i < d + (n + 1) by omega)]
      have he : s + 1 + (i - (d + 1)) = s + (i - d) := by omega
      rw [he, getD_set, if_neg (by omega : ¬(d = s + (i - d) ∧ d < m.length))]
    · rw [if_neg h1, getD_set]
      by_cases h2 : i = d
      · subst h2
        rw [if_pos ⟨rfl, by omega⟩, if_pos (show i ≤ i ∧ i < i + (n + 1) by omega)]
        have he : i - i = 0 := by omega
        rw [he, Nat.add_zero]
      · rw [if_neg (by omega : ¬(d = i ∧ d < m.length)),
          if_neg (by omega : ¬(d ≤ i ∧ i < d + (n + 1)))]

theorem copyBwd_getD (n : Nat) (d s : Nat) (hsd : s ≤ d) : ∀ (m : List Nat),
    d + n ≤ m.length → s + n ≤ m.length → ∀ i : Nat,
    (copyBwd m d s n).getD i 0 =
      if d ≤ i ∧ i < d + n then m.getD (s + (i - d)) 0 else m.getD i 0 := by
  induction n with
  | zero =>
    intro m _ _ i
    rw [if_neg (by omega)]
    rfl
  | succ n ih =>
    intro m hd hs i
    rw [show copyBwd m d s (n + 1) = copyBwd (m.set (d + n) (m.getD (s + n) 0)) d s n from rfl]
    rw [ih (m.set (d + n) (m.getD (s + n) 0)) (by simp; omega) (by simp; omega) i]
    by_cases h1 : d ≤ i ∧ i < d + n
    · rw [if_pos h1, if_pos (show d ≤ i ∧ i < d + (n + 1) by omega), getD_set,
        if_neg (by omega : ¬(d + n = s + (i - d) ∧ d + n < m.length))]
    · by_cases h2 : i = d + n
      · subst h2
        rw [if_neg h1, getD_set, if_pos ⟨rfl, by omega⟩,
          if_pos (show d ≤ d + n ∧ d + n < d + (n + 1) by omega)]
        have he : d + n - d = n := by omega
        rw [he]
      · rw [if_neg h1, getD_set, if_neg (by omega : ¬(d + n = i ∧ d + n < m.length)),
          if_neg (by omega : ¬(d ≤ i ∧ i < d + (n + 1)))]

theorem tempBufferCopy_length (m : List Nat) (d s n : Nat) :
    (tempBufferCopy m d s n).length = m.length := by
  unfold tempBufferCopy
  rw [writeBytes_length]

theorem tempBufferCopy_getD (m : List Nat) (d s n : Nat)
    (hd : d + n ≤ m.length) (hs : s + n ≤ m.length) (i : Nat) :
    (tempBufferCopy m d s n).getD i 0 =
      if d ≤ i ∧ i < d + n then m.getD (s + (i - d)) 0 else m.getD i 0 := by
  unfold tempBufferCopy
  have hlen : (byteSlice m s n).length = n := byteSlice_length m s n hs
  rw [writeBytes_getD _ _ _ (by rw [hlen]; omega) i, hlen]
  by_cases h1 : d ≤ i ∧ i < d + n
  · rw [if_pos h1, if_pos h1, byteSlice_getD _ _ _ _ (by omega)]
  · rw [if_neg h1, if_neg h1]

theorem memmove_eq_tempBufferCopy (m : List Nat) (d s n : Nat)
    (hd : d + n ≤ m.length) (hs : s + n ≤ m.length) :
    memmove m d s n = tempBufferCopy m d s n := by
  apply ext_getD
  · unfold memmove
    by_cases hds : d ≤ s
    · rw [if_pos hds, copyFwd_length, tempBufferCopy_length]
    · rw [if_neg hds, copyBwd_length, tempBufferCopy_length]
  · intro i hi
    unfold memmove
    by_cases hds : d ≤ s
    · rw [if_pos hds, copyFwd_getD n m d s hds hd hs i, tempBufferCopy_getD m d s n hd hs i]
    · rw [if_neg hds, copyBwd_getD n d s (by omega) m hd hs i,
        tempBufferCopy_getD m d s n hd hs i]

/-- C8: an in-bounds copy, overlapping or not and in either direction,
produces exactly the bytes of first reading the source range into a
temporary buffer and then writing that buffer to the destination range. -/
theorem C8_copy_via_temp_buffer (f : BFile) (dst src len : Nat)
    (hsz : f.size = f.disk.length)
    (h1 : src + len ≤ f.size) (h2 : dst + len ≤ f.size) :
    (copy f dst src len).1 = Res.ok ∧
    (copy f dst src len).2.disk = tempBufferCopy f.disk dst src len := by
  have hc : copy f dst src len = (Res.ok, { f with disk := memmove f.disk dst src len }) := by
    unfold copy
    rw [if_neg (by omega), if_neg (by omega)]
  rw [hc]
  exact ⟨rfl, memmove_eq_tempBufferCopy f.disk dst src len (by omega) (by omega)⟩

theorem C8_copy_via_temp_buffer_witness :
    (copy ⟨false, some 4, 4, 4, [1, 2, 3, 4]⟩ 1 0 3).1 = Res.ok ∧
    (copy ⟨false, some 4, 4, 4, [1, 2, 3, 4]⟩ 1 0 3).2.disk = tempBufferCopy [1, 2, 3, 4] 1 0 3 :=
  C8_copy_via_temp_buffer ⟨false, some 4, 4, 4, [1, 2, 3, 4]⟩ 1 0 3 rfl (by decide) (by decide)
